import Mathlib

/-!
# Verification of the pyEHR record wrappers and archetype codec

Shallow embedding of `pyehr/ehr/services/dbmanager/dbservices/wrappers.py`
(classes `Record`, `PatientRecord`, `ClinicalRecord`, `ArchetypeInstance`)
and of `DBServices.delete_patient` from
`openehr/ehr/services/dbmanager/dbservices/__init__.py`.

JSON-like wire values are modelled by the mutual inductives `JVal` /
`JMap` / `JList`; the in-memory archetype data values by `AVal` / `AMap` /
`AList`.  Python dictionaries are association lists (Python dicts never
hold duplicate keys; where that matters we carry an explicit nodup
hypothesis).  Python floats occur only as opaque payloads (timestamps)
that are never computed with, so they are carried as an `Int` payload
tagged `Scal.f`.
-/

deriving instance DecidableEq for Except

namespace PyEHR

/-- Scalar wire/data values: Python `str`, `int`, `float`, `bool`, `None`.
The float payload is opaque (never computed with), carried as `Int`. -/
inductive Scal : Type where
  | s (v : String)
  | i (v : Int)
  | f (v : Int)
  | b (v : Bool)
  | null
deriving DecidableEq, Repr

mutual
/-- A JSON wire value: scalar, array, or object. -/
inductive JVal : Type where
  | prim (p : Scal)
  | arr (xs : JList)
  | obj (m : JMap)
deriving DecidableEq, Repr

/-- A JSON object: association list of members (keys unique in real inputs). -/
inductive JMap : Type where
  | nil
  | cons (k : String) (v : JVal) (rest : JMap)
deriving DecidableEq, Repr

/-- A JSON array. -/
inductive JList : Type where
  | nil
  | cons (v : JVal) (rest : JList)
deriving DecidableEq, Repr
end

mutual
/-- A runtime value stored in an `ArchetypeInstance`'s `data` dictionary:
scalar, nested `ArchetypeInstance` (type tag plus field map), plain dict,
or list — exactly the shapes `to_json` dispatches on. -/
inductive AVal : Type where
  | prim (p : Scal)
  | node (archetype : String) (data : AMap)
  | vdict (m : AMap)
  | vlist (xs : AList)
deriving DecidableEq, Repr

/-- A Python dict with `AVal` values, as an association list. -/
inductive AMap : Type where
  | nil
  | cons (k : String) (v : AVal) (rest : AMap)
deriving DecidableEq, Repr

/-- A Python list of `AVal`s. -/
inductive AList : Type where
  | nil
  | cons (v : AVal) (rest : AList)
deriving DecidableEq, Repr
end

/-- First-occurrence lookup in a JSON object, as a Python `dict` access. -/
def JMap.lookup : JMap → String → Option JVal
  | .nil, _ => none
  | .cons k v rest, key => if k = key then some v else rest.lookup key

/-- Key membership, Python's `k in dict`. -/
def JMap.hasKey (m : JMap) (key : String) : Bool :=
  (m.lookup key).isSome

/-- The keys of a JSON object, in order. -/
def JMap.keys : JMap → List String
  | .nil => []
  | .cons k _ rest => k :: rest.keys

/-- Every key of the object belongs to `allowed` (voluptuous rejects
members outside the schema's declared key set). -/
def JMap.keysIn : JMap → List String → Bool
  | .nil, _ => true
  | .cons k _ rest, allowed => (k ∈ allowed : Bool) && rest.keysIn allowed

/-- Errors a decode can surface: `InvalidJsonStructureError` (raised on a
voluptuous `MultipleInvalid`), or an uncaught Python `TypeError` from a
constructor call with a missing required argument. -/
inductive DecodeErr : Type where
  | invalidJsonStructure
  | typeErr
deriving DecidableEq, Repr

/-- `ArchetypeInstance`: a type tag and a field dictionary. -/
structure ArchetypeInstance : Type where
  archetype_class : String
  data : AMap
deriving DecidableEq, Repr

/-- Modelled from the spec: `pyehr.utils.decode_dict` is imported from
`pyehr.utils`, which is not part of the sources; it normalises Python 2
unicode strings to `str`, which is the identity in this string model. -/
def decode_dict (w : JVal) : JVal := w

/-- Modelled from the spec: `pyehr.utils.cleanup_json` is imported from
`pyehr.utils`, which is not part of the sources; the spec describes no
preprocessing of wire input before schema validation, so it is modelled
as the identity. -/
def cleanup_json (w : JVal) : JVal := w

mutual
/-- The per-value encode dispatch shared verbatim by `to_json`'s top-level
loop and by `encode_dict_data`.  Returns `none` (a raised Python
`AttributeError`) when an `ArchetypeInstance` sits inside a list:
`encode_list_data` evaluates `v.to_json` where `v` is the enclosing
`to_json` loop's variable — always a plain dict or list at that point,
which has no `to_json` attribute. -/
def encodeVal : AVal → Option JVal
  | .prim p => some (.prim p)
  | .node a d => do
      pure (JVal.obj (.cons "archetype" (.prim (.s a))
        (.cons "data" (.obj (← encodeMapData d)) .nil)))
  | .vdict m => do pure (JVal.obj (← encodeMapData m))
  | .vlist xs => do pure (JVal.arr (← encodeListData xs))

/-- `encode_dict_data`: element-wise encode preserving keys. -/
def encodeMapData : AMap → Option JMap
  | .nil => some .nil
  | .cons k v rest => do pure (JMap.cons k (← encodeVal v) (← encodeMapData rest))

/-- `encode_list_data`: element-wise encode preserving order, except that
an `ArchetypeInstance` element hits the `v.to_json` slip and raises. -/
def encodeListData : AList → Option JList
  | .nil => some .nil
  | .cons x rest =>
    match x with
    | .node _ _ => none
    | .prim p => do pure (JList.cons (JVal.prim p) (← encodeListData rest))
    | .vdict m => do pure (JList.cons (JVal.obj (← encodeMapData m)) (← encodeListData rest))
    | .vlist xs => do pure (JList.cons (JVal.arr (← encodeListData xs)) (← encodeListData rest))
end

/-- `ArchetypeInstance.to_json`: the two-member wire object. -/
def ArchetypeInstance.to_json (a : ArchetypeInstance) : Option JVal :=
  encodeVal (.node a.archetype_class a.data)

/-- `is_archetype`: membership of both reserved keys, nothing deeper. -/
def is_archetype (m : JMap) : Bool :=
  m.hasKey "archetype" && m.hasKey "data"

/-- The voluptuous schema of `ArchetypeInstance.from_json`:
`Required('archetype'): str`, `Required('data'): dict`, and (default
`PREVENT_EXTRA`) no member outside those two. -/
def archSchemaOk (m : JMap) : Bool :=
  (match m.lookup "archetype" with | some (.prim (.s _)) => true | _ => false) &&
  (match m.lookup "data" with | some (.obj _) => true | _ => false) &&
  m.keysIn ["archetype", "data"]

/-- The validated type tag, when present as a string. -/
def getArchetype (m : JMap) : Option String :=
  match m.lookup "archetype" with
  | some (.prim (.s a)) => some a
  | _ => none

mutual
/-- The per-value decode dispatch shared verbatim by `from_json`'s
top-level loop, `decode_dict_data` and `decode_list_data`: an object with
both reserved keys is handed to `ArchetypeInstance.from_json` (inlined
here: schema check, then decode of the `data` member), any other object
recurses as a plain dict, a list recurses element-wise, anything else
passes through. -/
def decodeVal : JVal → Except DecodeErr AVal
  | .prim p => .ok (.prim p)
  | .arr xs => do pure (AVal.vlist (← decodeListData xs))
  | .obj m =>
    if is_archetype m then
      if archSchemaOk m then
        match getArchetype m with
        | some a => do pure (AVal.node a (← decodeDataMember m))
        | none => .error .invalidJsonStructure
      else .error .invalidJsonStructure
    else do pure (AVal.vdict (← decodeMapData m))

/-- Fetch `json_data['data']` (first occurrence) and decode its entries;
the schema has already certified it is an object. -/
def decodeDataMember : JMap → Except DecodeErr AMap
  | .nil => .error .invalidJsonStructure
  | .cons k v rest =>
    if k = "data" then
      match v with
      | .obj d => decodeMapData d
      | _ => .error .invalidJsonStructure
    else decodeDataMember rest

/-- `decode_dict_data`: element-wise decode preserving keys. -/
def decodeMapData : JMap → Except DecodeErr AMap
  | .nil => .ok .nil
  | .cons k v rest => do pure (AMap.cons k (← decodeVal v) (← decodeMapData rest))

/-- `decode_list_data`: element-wise decode preserving order. -/
def decodeListData : JList → Except DecodeErr AList
  | .nil => .ok .nil
  | .cons v rest => do pure (AList.cons (← decodeVal v) (← decodeListData rest))
end

/-- `ArchetypeInstance.from_json`: preprocess (identity), validate the
top-level schema, then decode the `data` member; a `MultipleInvalid`
becomes `InvalidJsonStructureError`, and errors raised while decoding
nested tagged objects propagate. -/
def ArchetypeInstance.from_json (w : JVal) : Except DecodeErr ArchetypeInstance :=
  match cleanup_json (decode_dict w) with
  | .obj m =>
    if archSchemaOk m then
      match getArchetype m with
      | some a => do pure (ArchetypeInstance.mk a (← decodeDataMember m))
      | none => .error .invalidJsonStructure
    else .error .invalidJsonStructure
  | _ => .error .invalidJsonStructure

/-- Python truthiness of a possibly-absent string (`if record_id:`). -/
def truthyId : Option String → Bool
  | some s => s ≠ ""
  | none => false

/-- `Record.__init__`'s id assignment: `str(record_id)` when truthy,
otherwise a freshly generated `uuid4().hex`. -/
def recordInitId (record_id : Option String) (fresh : String) : Option String :=
  if truthyId record_id then record_id else some fresh

/-- `Record.__init__`'s `last_update or creation_time` (a float `0.0` is
falsy, as is `None`). -/
def recordInitLastUpdate (creation_time : Int) (last_update : Option Int) : Int :=
  match last_update with
  | some t => if t = 0 then creation_time else t
  | none => creation_time

/-- `creation_time or time.time()` in the subclass constructors. -/
def defaultCreationTime (creation_time : Option Int) (now : Int) : Int :=
  match creation_time with
  | some t => if t = 0 then now else t
  | none => now

/-- A clinical record's in-memory state. -/
structure ClinicalRecord : Type where
  creation_time : Int
  last_update : Int
  active : Bool
  record_id : Option String
  ehr_data : ArchetypeInstance
deriving DecidableEq, Repr

/-- A patient record's in-memory state. -/
structure PatientRecord : Type where
  creation_time : Int
  last_update : Int
  active : Bool
  record_id : Option String
  ehr_records : List ClinicalRecord
deriving DecidableEq, Repr

/-- `ClinicalRecord.__init__` (which chains to `Record.__init__`);
`now` is `time.time()` and `fresh` the generated `uuid4().hex`. -/
def ClinicalRecord.init (ehr_data : ArchetypeInstance) (creation_time : Option Int)
    (last_update : Option Int) (active : Bool) (record_id : Option String)
    (now : Int) (fresh : String) : ClinicalRecord :=
  let ct := defaultCreationTime creation_time now
  ⟨ct, recordInitLastUpdate ct last_update, active, recordInitId record_id fresh, ehr_data⟩

/-- `PatientRecord.__init__`: the id is a required argument here;
`ehr_records or []` yields the given list (empty stays empty). -/
def PatientRecord.init (record_id : String) (ehr_records : Option (List ClinicalRecord))
    (creation_time : Option Int) (last_update : Option Int) (active : Bool)
    (now : Int) (fresh : String) : PatientRecord :=
  let ct := defaultCreationTime creation_time now
  ⟨ct, recordInitLastUpdate ct last_update, active,
    recordInitId (some record_id) fresh, ehr_records.getD []⟩

/-- `ClinicalRecord.new_record_id`: delegates to the base, which assigns a
fresh `uuid4().hex`. -/
def ClinicalRecord.new_record_id (c : ClinicalRecord) (fresh : String) : ClinicalRecord :=
  { c with record_id := some fresh }

/-- `PatientRecord.new_record_id`: the override's body is `pass`. -/
def PatientRecord.new_record_id (p : PatientRecord) : PatientRecord := p

/-- A record of either concrete kind, for `Record.__eq__`'s
`type(self) == type(other)` test. -/
inductive Rec : Type where
  | patient (p : PatientRecord)
  | clinical (c : ClinicalRecord)
deriving DecidableEq, Repr

/-- The record id of either kind. -/
def Rec.record_id : Rec → Option String
  | .patient p => p.record_id
  | .clinical c => c.record_id

/-- Same concrete class. -/
def Rec.sameKind : Rec → Rec → Bool
  | .patient _, .patient _ => true
  | .clinical _, .clinical _ => true
  | _, _ => false

/-- `Record.__eq__`: same concrete type, equal ids, and neither id `None`. -/
def recordEq (a b : Rec) : Bool :=
  if a.sameKind b then
    decide (a.record_id = b.record_id) && a.record_id.isSome && b.record_id.isSome
  else
    false

/-- `ClinicalRecord.to_json`: `creation_time`, `last_update`, `active`,
then `record_id` only when truthy, then the encoded payload. -/
def ClinicalRecord.to_json (c : ClinicalRecord) : Option JVal := do
  let payload ← c.ehr_data.to_json
  let tail : JMap :=
    match c.record_id with
    | some s =>
      if s = "" then .cons "ehr_data" payload .nil
      else .cons "record_id" (.prim (.s s)) (.cons "ehr_data" payload .nil)
    | none => .cons "ehr_data" payload .nil
  pure (JVal.obj (.cons "creation_time" (.prim (.f c.creation_time))
    (.cons "last_update" (.prim (.f c.last_update))
    (.cons "active" (.prim (.b c.active)) tail))))

/-- Encode a list of clinical records member-wise (`e.to_json()` loop). -/
def encodeRecList : List ClinicalRecord → Option JList
  | [] => some .nil
  | c :: rest => do pure (JList.cons (← c.to_json) (← encodeRecList rest))

/-- `PatientRecord.to_json`: all four base attributes unconditionally
(`record_id` raw, so `None` becomes a null member), then the always
present encoded `ehr_records` list. -/
def PatientRecord.to_json (p : PatientRecord) : Option JVal := do
  let ehrs ← encodeRecList p.ehr_records
  pure (JVal.obj (.cons "record_id"
      (match p.record_id with | some s => .prim (.s s) | none => .prim .null)
    (.cons "creation_time" (.prim (.f p.creation_time))
    (.cons "last_update" (.prim (.f p.last_update))
    (.cons "active" (.prim (.b p.active))
    (.cons "ehr_records" (.arr ehrs) .nil))))))

/-- An optional member that must be a float when present. -/
def optFloatOk (m : JMap) (k : String) : Bool :=
  match m.lookup k with
  | none => true
  | some (.prim (.f _)) => true
  | _ => false

/-- An optional member that must be a bool when present. -/
def optBoolOk (m : JMap) (k : String) : Bool :=
  match m.lookup k with
  | none => true
  | some (.prim (.b _)) => true
  | _ => false

/-- An optional member that must be a string when present. -/
def optStrOk (m : JMap) (k : String) : Bool :=
  match m.lookup k with
  | none => true
  | some (.prim (.s _)) => true
  | _ => false

/-- The float payload of an optional member, for the constructor call. -/
def getFloatMember (m : JMap) (k : String) : Option Int :=
  match m.lookup k with
  | some (.prim (.f t)) => some t
  | _ => none

/-- The bool payload of an optional member. -/
def getBoolMember (m : JMap) (k : String) : Option Bool :=
  match m.lookup k with
  | some (.prim (.b b)) => some b
  | _ => none

/-- The string payload of an optional member. -/
def getStrMember (m : JMap) (k : String) : Option String :=
  match m.lookup k with
  | some (.prim (.s s)) => some s
  | _ => none

/-- The voluptuous schema of `ClinicalRecord.from_json`:
`Required('ehr_data'): dict`, optional typed members, no extras. -/
def crSchemaOk (m : JMap) : Bool :=
  (match m.lookup "ehr_data" with | some (.obj _) => true | _ => false) &&
  optFloatOk m "creation_time" && optFloatOk m "last_update" &&
  optBoolOk m "active" && optStrOk m "record_id" &&
  m.keysIn ["ehr_data", "creation_time", "last_update", "active", "record_id"]

/-- `ClinicalRecord.from_json`: schema check, recursive payload decode,
then the constructor call with the optional members as keyword args. -/
def ClinicalRecord.from_json (now : Int) (fresh : String) (w : JVal) :
    Except DecodeErr ClinicalRecord :=
  match cleanup_json (decode_dict w) with
  | .obj m =>
    if crSchemaOk m then
      match m.lookup "ehr_data" with
      | some payload => do
          let a ← ArchetypeInstance.from_json payload
          pure (ClinicalRecord.init a (getFloatMember m "creation_time")
            (getFloatMember m "last_update") ((getBoolMember m "active").getD true)
            (getStrMember m "record_id") now fresh)
      | none => .error .invalidJsonStructure
    else .error .invalidJsonStructure
  | _ => .error .invalidJsonStructure

/-- The voluptuous schema of `PatientRecord.from_json`:
`Required('ehr_records'): list`, optional typed members, no extras. -/
def prSchemaOk (m : JMap) : Bool :=
  (match m.lookup "ehr_records" with | some (.arr _) => true | _ => false) &&
  optFloatOk m "creation_time" && optFloatOk m "last_update" &&
  optStrOk m "record_id" && optBoolOk m "active" &&
  m.keysIn ["creation_time", "last_update", "record_id", "active", "ehr_records"]

/-- Decode each element of `ehr_records` via `ClinicalRecord.from_json`. -/
def decodeRecList (now : Int) (fresh : String) : JList → Except DecodeErr (List ClinicalRecord)
  | .nil => .ok []
  | .cons v rest => do
      pure ((← ClinicalRecord.from_json now fresh v) :: (← decodeRecList now fresh rest))

/-- `PatientRecord.from_json`: schema check, element-wise decode of
`ehr_records`, then `PatientRecord(**json_data)` — which raises an
uncaught `TypeError` when the `record_id` key is absent, since the
constructor's `record_id` parameter has no default. -/
def PatientRecord.from_json (now : Int) (fresh : String) (w : JVal) :
    Except DecodeErr PatientRecord :=
  match cleanup_json (decode_dict w) with
  | .obj m =>
    if prSchemaOk m then
      match m.lookup "ehr_records" with
      | some (.arr xs) => do
          let ehrs ← decodeRecList now fresh xs
          match m.lookup "record_id" with
          | some (.prim (.s rid)) =>
              pure (PatientRecord.init rid (some ehrs) (getFloatMember m "creation_time")
                (getFloatMember m "last_update") ((getBoolMember m "active").getD true)
                now fresh)
          | _ => .error .typeErr
      | _ => .error .invalidJsonStructure
    else .error .invalidJsonStructure
  | _ => .error .invalidJsonStructure

/-- The observable outcome of `DBServices.delete_patient`: either the
`CascadeDeleteError` is raised, or `driver.delete_record` is invoked with
the patient's id. -/
inductive DeleteOutcome : Type where
  | cascadeErr
  | deleted (record_id : Option String)
deriving DecidableEq, Repr

/-- `DBServices.delete_patient`, guard condition as written:
`if cascade_delete and len(patient.ehr_records) > 0: raise ...`. -/
def delete_patient (patient : PatientRecord) (cascade_delete : Bool) : DeleteOutcome :=
  if cascade_delete && patient.ehr_records.length > 0 then
    .cascadeErr
  else
    .deleted patient.record_id

/-- First-occurrence lookup in a data dictionary. -/
def AMap.lookup : AMap → String → Option AVal
  | .nil, _ => none
  | .cons k v rest, key => if k = key then some v else rest.lookup key

/-- Key membership in a data dictionary. -/
def AMap.hasKey (m : AMap) (key : String) : Bool :=
  (m.lookup key).isSome

/-- The keys of a data dictionary, in order. -/
def AMap.keys : AMap → List String
  | .nil => []
  | .cons k _ rest => k :: rest.keys

/-- A plain data dictionary that happens to carry both reserved keys —
the shape the decoder misreads as an embedded node. -/
def plainTagged (m : AMap) : Bool :=
  m.hasKey "archetype" && m.hasKey "data"

mutual
/-- Data values on which the codec round-trips: no `ArchetypeInstance`
inside a list (the `encode_list_data` slip raises there) and no plain
dict carrying both reserved keys (the decoder would misread it). -/
def wfVal : AVal → Bool
  | .prim _ => true
  | .node _ d => wfMap d
  | .vdict m => !plainTagged m && wfMap m
  | .vlist xs => wfList xs

/-- `wfVal` on every value of a data dictionary. -/
def wfMap : AMap → Bool
  | .nil => true
  | .cons _ v rest => wfVal v && wfMap rest

/-- `wfVal` on every list element, with no `ArchetypeInstance` element. -/
def wfList : AList → Bool
  | .nil => true
  | .cons x rest =>
    (match x with | .node _ _ => false | _ => true) && wfVal x && wfList rest
end

mutual
/-- Wire values free (at every depth, lists included) of objects carrying
both reserved keys — the decoder never recurses into a tagged node below
such a value, hence never re-validates anything. -/
def vNoTagged : JVal → Bool
  | .prim _ => true
  | .arr xs => lNoTagged xs
  | .obj m => !is_archetype m && mNoTagged m

/-- `vNoTagged` on every member value of an object. -/
def mNoTagged : JMap → Bool
  | .nil => true
  | .cons _ v rest => vNoTagged v && mNoTagged rest

/-- `vNoTagged` on every element of an array. -/
def lNoTagged : JList → Bool
  | .nil => true
  | .cons v rest => vNoTagged v && lNoTagged rest
end

/-- The elements of a wire array, as a `List`. -/
def JList.toList : JList → List JVal
  | .nil => []
  | .cons v rest => v :: rest.toList

/-! ## Theorems -/

/-- C4: the cascade guard is inverted.  The source raises
`CascadeDeleteError` only when `cascade_delete` IS requested
(`if cascade_delete and len(patient.ehr_records) > 0`), so hard-deleting
a patient that still owns a clinical record WITHOUT cascade silently
deletes it, contradicting the guard's own error message ("EHR records
still connected") and the spec; requesting cascade is what trips the
error.  Evaluated here on a patient owning one clinical record. -/
theorem delete_patient_guard_inverted :
    delete_patient ⟨1, 1, true, some "pid",
        [⟨1, 1, true, some "cid", ⟨"blood_pressure", .nil⟩⟩]⟩ false =
      .deleted (some "pid") ∧
    delete_patient ⟨1, 1, true, some "pid",
        [⟨1, 1, true, some "cid", ⟨"blood_pressure", .nil⟩⟩]⟩ true =
      .cascadeErr :=
  ⟨rfl, rfl⟩

/-- C8 counterexample: `PatientRecord.new_record_id`'s body is `pass`, so
renewing a patient record's id leaves the record — and in particular its
id — completely unchanged, against the claim that every record kind gets
a fresh id. -/
theorem patient_new_record_id_is_noop :
    PatientRecord.new_record_id ⟨1, 1, true, some "old-id", []⟩ =
      ⟨1, 1, true, some "old-id", []⟩ :=
  rfl

/-- C8 amended: `ClinicalRecord.new_record_id` discards the current id
and stores the freshly generated one, leaving every other field
unchanged; `PatientRecord.new_record_id` is a no-op that changes
nothing. -/
theorem new_record_id_spec : ∀ (c : ClinicalRecord) (fresh : String) (p : PatientRecord),
    (c.new_record_id fresh).record_id = some fresh ∧
    (c.new_record_id fresh).creation_time = c.creation_time ∧
    (c.new_record_id fresh).last_update = c.last_update ∧
    (c.new_record_id fresh).active = c.active ∧
    (c.new_record_id fresh).ehr_data = c.ehr_data ∧
    p.new_record_id = p :=
  fun _ _ _ => ⟨rfl, rfl, rfl, rfl, rfl, rfl⟩

/-- C6: `Record.__eq__` holds exactly for two records of the same
concrete kind whose ids are present, non-empty and equal (ids are
non-empty for every record the constructors can build, which the
hypotheses record); a record whose id is `None` is equal to nothing, not
even to itself. -/
theorem record_eq_iff (a b : Rec)
    (ha : a.record_id ≠ some "") (hb : b.record_id ≠ some "") :
    (recordEq a b = true ↔
      (a.sameKind b = true ∧
        ∃ s, s ≠ "" ∧ a.record_id = some s ∧ b.record_id = some s)) ∧
    (a.record_id = none → recordEq a b = false) ∧
    (a.record_id = none → recordEq a a = false) := by
  refine ⟨?_, ?_, ?_⟩
  · unfold recordEq
    by_cases hk : a.sameKind b = true
    · simp only [hk, if_true, Bool.and_eq_true, decide_eq_true_eq, true_and]
      constructor
      · rintro ⟨⟨heq, hsa⟩, hsb⟩
        obtain ⟨s, hs⟩ := Option.isSome_iff_exists.mp hsa
        refine ⟨s, ?_, hs, heq ▸ hs⟩
        intro hse
        exact ha (hse ▸ hs)
      · rintro ⟨s, hse, h1, h2⟩
        simp [h1, h2]
    · simp [hk]
  · intro h
    unfold recordEq
    split <;> simp [h]
  · intro h
    unfold recordEq
    split <;> simp [h]

/-- C6 witness: two clinical records sharing the id `"x"` but differing
in every other field are equal; a patient record with an absent id is
not equal to an identical copy of itself. -/
theorem record_eq_iff_witness :
    recordEq (.clinical ⟨1, 1, true, some "x", ⟨"a", .nil⟩⟩)
        (.clinical ⟨2, 2, false, some "x", ⟨"b", .nil⟩⟩) = true ∧
    recordEq (.patient ⟨1, 1, true, none, []⟩) (.patient ⟨1, 1, true, none, []⟩) = false :=
  ⟨((record_eq_iff _ _ (by decide) (by decide)).1).mpr
      ⟨by decide, "x", by decide, rfl, rfl⟩,
    ((record_eq_iff (.patient ⟨1, 1, true, none, []⟩) (.patient ⟨1, 1, true, none, []⟩)
      (by decide) (by decide)).2.2) rfl⟩

/-- C7: encoding a clinical record whose id is absent omits the
`record_id` member entirely (no member, hence no null member), while
encoding a patient record always yields a present `record_id` member and
a present `ehr_records` array, whatever the id holds. -/
theorem to_json_record_id_member (c : ClinicalRecord) (p : PatientRecord) (lc lp : JMap)
    (hc : c.record_id = none)
    (hjc : c.to_json = some (.obj lc)) (hjp : p.to_json = some (.obj lp)) :
    lc.lookup "record_id" = none ∧
    (∃ v, lp.lookup "record_id" = some v) ∧
    (∃ xs, lp.lookup "ehr_records" = some (.arr xs)) := by
  refine ⟨?_, ?_⟩
  · cases hpl : c.ehr_data.to_json with
    | none => simp [ClinicalRecord.to_json, hpl] at hjc
    | some payload =>
      simp [ClinicalRecord.to_json, hpl, hc] at hjc
      subst hjc
      simp [JMap.lookup]
  · cases hel : encodeRecList p.ehr_records with
    | none => simp [PatientRecord.to_json, hel] at hjp
    | some ehrs =>
      simp [PatientRecord.to_json, hel] at hjp
      subst hjp
      refine ⟨?_, ?_⟩ <;> simp [JMap.lookup]

/-- C7 witness: a concrete unsaved clinical record and a concrete patient
record with a `None` id. -/
theorem to_json_record_id_member_witness :
    (JMap.cons "creation_time" (.prim (.f 1)) (.cons "last_update" (.prim (.f 1))
      (.cons "active" (.prim (.b true)) (.cons "ehr_data"
        (.obj (.cons "archetype" (.prim (.s "a")) (.cons "data" (.obj .nil) .nil)))
        .nil)))).lookup "record_id" = none ∧
    (∃ v, (JMap.cons "record_id" (.prim .null) (.cons "creation_time" (.prim (.f 2))
      (.cons "last_update" (.prim (.f 2)) (.cons "active" (.prim (.b true))
        (.cons "ehr_records" (.arr .nil) .nil))))).lookup "record_id" = some v) ∧
    (∃ xs, (JMap.cons "record_id" (.prim .null) (.cons "creation_time" (.prim (.f 2))
      (.cons "last_update" (.prim (.f 2)) (.cons "active" (.prim (.b true))
        (.cons "ehr_records" (.arr .nil) .nil))))).lookup "ehr_records" =
          some (.arr xs)) :=
  to_json_record_id_member
    ⟨1, 1, true, none, ⟨"a", .nil⟩⟩ ⟨2, 2, true, none, []⟩ _ _ rfl (by decide) (by decide)

/-- C3: on every object reached inside `data` during a successful decode,
the decoder yields an embedded node exactly when the object carries both
reserved member names — `is_archetype` tests key membership only, so a
plain mapping that happens to carry both keys comes back as a node, never
as a plain dict value. -/
theorem decode_embedded_node_iff (m : JMap) (r : AVal)
    (h : decodeVal (.obj m) = .ok r) :
    (∃ a d, r = .node a d) ↔
      (m.hasKey "archetype" = true ∧ m.hasKey "data" = true) := by
  by_cases ht : is_archetype m = true
  · have hkeys := (Bool.and_eq_true _ _).mp ht
    refine ⟨fun _ => hkeys, fun _ => ?_⟩
    simp only [decodeVal, ht, if_true] at h
    by_cases hs : archSchemaOk m = true
    · rw [if_pos hs] at h
      cases hg : getArchetype m with
      | none => rw [hg] at h; exact absurd h (by simp)
      | some a =>
        rw [hg] at h
        cases hd : decodeDataMember m with
        | error e => rw [hd] at h; exact absurd h (by simp [Bind.bind, Except.bind])
        | ok d =>
          rw [hd] at h
          refine ⟨a, d, ?_⟩
          have : Except.ok (ε := DecodeErr) (AVal.node a d) = .ok r := h
          exact (Except.ok.inj this).symm
    · rw [if_neg hs] at h
      exact absurd h (by simp)
  · constructor
    · rintro ⟨a, d, rfl⟩
      simp only [decodeVal, ht, if_false, Bool.false_eq_true] at h
      cases hd : decodeMapData m with
      | error e => rw [hd] at h; exact absurd h (by simp [Bind.bind, Except.bind])
      | ok dm =>
        rw [hd] at h
        have : Except.ok (ε := DecodeErr) (AVal.vdict dm) = .ok (AVal.node a d) := h
        exact absurd (Except.ok.inj this) (by simp)
    · intro hkeys
      exact absurd ((Bool.and_eq_true _ _).mpr hkeys) ht

/-- C3 witness: a plain one-member `data` whose value carries both
reserved keys decodes to an embedded node. -/
theorem decode_embedded_node_iff_witness :
    (∃ a d, AVal.node "b" .nil = AVal.node a d) ↔
      ((JMap.cons "archetype" (.prim (.s "b")) (.cons "data" (.obj .nil) .nil)).hasKey
          "archetype" = true ∧
        (JMap.cons "archetype" (.prim (.s "b")) (.cons "data" (.obj .nil) .nil)).hasKey
          "data" = true) :=
  decode_embedded_node_iff
    (.cons "archetype" (.prim (.s "b")) (.cons "data" (.obj .nil) .nil))
    (.node "b" .nil) (by decide)

/-- A key present in the object but outside the allowed set refutes the
voluptuous extra-key check. -/
theorem keysIn_eq_false_of_extra :
    ∀ (m : JMap) (allowed : List String) (k : String),
      k ∈ m.keys → k ∉ allowed → m.keysIn allowed = false
  | .nil, _, _, hmem, _ => by simp [JMap.keys] at hmem
  | .cons k' v rest, allowed, k, hmem, hout => by
    simp only [JMap.keys, List.mem_cons] at hmem
    rcases hmem with rfl | hmem
    · simp [JMap.keysIn, hout]
    · simp [JMap.keysIn, keysIn_eq_false_of_extra rest allowed k hmem hout]

/-- C10: every decoder schema runs with voluptuous's default
`PREVENT_EXTRA`, so a wire object carrying its required members correctly
typed but also any member name outside the declared set fails with
`InvalidJsonStructureError` instead of ignoring the extra member. -/
theorem decode_rejects_unknown_members (m : JMap) (now : Int) (fresh : String)
    (k : String) (hk : k ∈ m.keys) :
    ((∃ a, m.lookup "archetype" = some (.prim (.s a))) →
      (∃ d, m.lookup "data" = some (.obj d)) →
      k ∉ (["archetype", "data"] : List String) →
      ArchetypeInstance.from_json (.obj m) = .error .invalidJsonStructure) ∧
    ((∃ d, m.lookup "ehr_data" = some (.obj d)) →
      k ∉ (["ehr_data", "creation_time", "last_update", "active", "record_id"] : List String) →
      ClinicalRecord.from_json now fresh (.obj m) = .error .invalidJsonStructure) ∧
    ((∃ xs, m.lookup "ehr_records" = some (.arr xs)) →
      k ∉ (["creation_time", "last_update", "record_id", "active", "ehr_records"] : List String) →
      PatientRecord.from_json now fresh (.obj m) = .error .invalidJsonStructure) := by
  refine ⟨fun _ _ hout => ?_, fun _ hout => ?_, fun _ hout => ?_⟩
  · have hkin := keysIn_eq_false_of_extra m _ k hk hout
    simp [ArchetypeInstance.from_json, cleanup_json, decode_dict, archSchemaOk, hkin]
  · have hkin := keysIn_eq_false_of_extra m _ k hk hout
    simp [ClinicalRecord.from_json, cleanup_json, decode_dict, crSchemaOk, hkin]
  · have hkin := keysIn_eq_false_of_extra m _ k hk hout
    simp [PatientRecord.from_json, cleanup_json, decode_dict, prSchemaOk, hkin]

/-- C10 witness: three concrete wire objects, each with its required
members correctly typed plus an `extra` member, all rejected. -/
theorem decode_rejects_unknown_members_witness :
    ArchetypeInstance.from_json (.obj (.cons "archetype" (.prim (.s "a"))
        (.cons "data" (.obj .nil) (.cons "extra" (.prim (.b true)) .nil)))) =
      .error .invalidJsonStructure ∧
    ClinicalRecord.from_json 1 "u" (.obj (.cons "ehr_data"
        (.obj (.cons "archetype" (.prim (.s "a")) (.cons "data" (.obj .nil) .nil)))
        (.cons "extra" (.prim (.b true)) .nil))) = .error .invalidJsonStructure ∧
    PatientRecord.from_json 1 "u" (.obj (.cons "ehr_records" (.arr .nil)
        (.cons "extra" (.prim (.b true)) .nil))) = .error .invalidJsonStructure :=
  ⟨(decode_rejects_unknown_members
      (.cons "archetype" (.prim (.s "a"))
        (.cons "data" (.obj .nil) (.cons "extra" (.prim (.b true)) .nil)))
      1 "u" "extra" (by decide)).1 ⟨"a", rfl⟩ ⟨.nil, rfl⟩ (by decide),
    (decode_rejects_unknown_members
      (.cons "ehr_data"
        (.obj (.cons "archetype" (.prim (.s "a")) (.cons "data" (.obj .nil) .nil)))
        (.cons "extra" (.prim (.b true)) .nil))
      1 "u" "extra" (by decide)).2.1 ⟨_, rfl⟩ (by decide),
    (decode_rejects_unknown_members
      (.cons "ehr_records" (.arr .nil) (.cons "extra" (.prim (.b true)) .nil))
      1 "u" "extra" (by decide)).2.2 ⟨.nil, rfl⟩ (by decide)⟩

/-- C2: a wire object accepted by the decoder whose `data` holds a list
with an element carrying both reserved keys decodes fine, but re-encoding
the result crashes: `encode_list_data` evaluates `v.to_json` — the wrong
variable, an attribute access on a list — instead of `x.to_json()`, so
`encode(decode(w))` raises `AttributeError` rather than reproducing `w`. -/
theorem encode_decode_crashes_on_node_in_list :
    ArchetypeInstance.from_json (.obj (.cons "archetype" (.prim (.s "a"))
        (.cons "data" (.obj (.cons "k" (.arr (.cons (.obj (.cons "archetype"
          (.prim (.s "b")) (.cons "data" (.obj .nil) .nil))) .nil)) .nil)) .nil))) =
      .ok ⟨"a", .cons "k" (.vlist (.cons (.node "b" .nil) .nil)) .nil⟩ ∧
    ArchetypeInstance.to_json
        ⟨"a", .cons "k" (.vlist (.cons (.node "b" .nil) .nil)) .nil⟩ = none := by
  decide

/-- C1 counterexample: a tree whose `data` holds a plain dict that merely
uses both reserved keys encodes fine, but decoding the encoding
reinterprets that dict as an embedded node, so `decode(encode(t))` is not
structurally equal to `t`; and a tree holding an `ArchetypeInstance`
inside a list does not even encode (the `v.to_json` slip raises). -/
theorem decode_encode_not_id_on_tagged_plain_dict :
    ArchetypeInstance.to_json
        ⟨"a", .cons "k" (.vlist (.cons (.node "c" .nil) .nil)) .nil⟩ = none ∧
    ArchetypeInstance.to_json
        ⟨"a", .cons "k" (.vdict (.cons "archetype" (.prim (.s "b"))
          (.cons "data" (.vdict .nil) .nil))) .nil⟩ =
      some (.obj (.cons "archetype" (.prim (.s "a"))
        (.cons "data" (.obj (.cons "k" (.obj (.cons "archetype" (.prim (.s "b"))
          (.cons "data" (.obj .nil) .nil))) .nil)) .nil))) ∧
    ArchetypeInstance.from_json (.obj (.cons "archetype" (.prim (.s "a"))
        (.cons "data" (.obj (.cons "k" (.obj (.cons "archetype" (.prim (.s "b"))
          (.cons "data" (.obj .nil) .nil))) .nil)) .nil))) =
      .ok ⟨"a", .cons "k" (.node "b" .nil) .nil⟩ ∧
    (⟨"a", .cons "k" (.node "b" .nil) .nil⟩ : ArchetypeInstance) ≠
      ⟨"a", .cons "k" (.vdict (.cons "archetype" (.prim (.s "b"))
        (.cons "data" (.vdict .nil) .nil))) .nil⟩ := by
  decide

/-- C5 counterexample: the claim's own example — a top-level object with
both members present and correctly typed, whose nested `data` value is an
object with a non-string `archetype` member.  The claim says decoding
succeeds since only the top level is schema-checked; in fact the nested
object carries both reserved keys, so `from_json` recurses into it,
re-applies the schema there, and the failure propagates.  The first
conjunct shows the claim's "exactly when" is also too narrow at the top
level: both members present and correctly typed plus an extra member is
rejected as well. -/
theorem decode_validates_nested_tagged_objects :
    ArchetypeInstance.from_json (.obj (.cons "archetype" (.prim (.s "a"))
        (.cons "data" (.obj .nil) (.cons "note" (.prim (.s "x")) .nil)))) =
      .error .invalidJsonStructure ∧
    archSchemaOk (.cons "archetype" (.prim (.s "a"))
        (.cons "data" (.obj (.cons "k" (.obj (.cons "archetype" (.prim (.i 5))
          (.cons "data" (.obj .nil) .nil))) .nil)) .nil)) = true ∧
    ArchetypeInstance.from_json (.obj (.cons "archetype" (.prim (.s "a"))
        (.cons "data" (.obj (.cons "k" (.obj (.cons "archetype" (.prim (.i 5))
          (.cons "data" (.obj .nil) .nil))) .nil)) .nil))) =
      .error .invalidJsonStructure := by
  decide

/-- Unpacking a successful top-level schema check. -/
theorem archSchemaOk_spec (m : JMap) (h : archSchemaOk m = true) :
    (∃ a, m.lookup "archetype" = some (.prim (.s a))) ∧
    (∃ d, m.lookup "data" = some (.obj d)) ∧
    m.keysIn ["archetype", "data"] = true := by
  simp only [archSchemaOk, Bool.and_eq_true] at h
  obtain ⟨⟨h1, h2⟩, h3⟩ := h
  refine ⟨?_, ?_, h3⟩
  · cases hl : m.lookup "archetype" with
    | none => rw [hl] at h1; exact absurd h1 (by simp)
    | some v =>
      rw [hl] at h1
      match v, h1 with
      | .prim (.s a), _ => exact ⟨a, rfl⟩
  · cases hl : m.lookup "data" with
    | none => rw [hl] at h2; exact absurd h2 (by simp)
    | some v =>
      rw [hl] at h2
      match v, h2 with
      | .obj d, _ => exact ⟨d, rfl⟩

/-- Induction along an object's member spine only (values untouched). -/
theorem JMap.memberSpineInduction {motive : JMap → Prop} (hnil : motive .nil)
    (hcons : ∀ k v rest, motive rest → motive (.cons k v rest)) (m : JMap) : motive m :=
  JMap.rec (motive_1 := fun _ => True) (motive_2 := motive) (motive_3 := fun _ => True)
    (fun _ => trivial) (fun _ _ => trivial) (fun _ _ => trivial)
    hnil (fun k v rest _ ih => hcons k v rest ih)
    trivial (fun _ _ _ _ => trivial) m

/-- Once the schema has certified the `data` member, decoding it is
decoding its entries. -/
theorem decodeDataMember_eq (m : JMap) :
    ∀ d : JMap, m.lookup "data" = some (.obj d) →
      decodeDataMember m = decodeMapData d := by
  induction m using JMap.memberSpineInduction with
  | hnil => intro d h; simp [JMap.lookup] at h
  | hcons k v rest ih =>
    intro d h
    rcases eq_or_ne k "data" with rfl | hk
    · have hv : v = .obj d := by simpa [JMap.lookup] using h
      subst hv
      rfl
    · rw [JMap.lookup, if_neg hk] at h
      have hstep : decodeDataMember (.cons k v rest) = decodeDataMember rest := by
        rw [decodeDataMember.eq_def]
        simp [hk]
      rw [hstep]
      exact ih d h

mutual
/-- A wire value free of tagged objects always decodes. -/
theorem decodeVal_ok_of_noTagged :
    ∀ v : JVal, vNoTagged v = true → ∃ r, decodeVal v = .ok r
  | .prim p, _ => ⟨.prim p, rfl⟩
  | .arr xs, h => by
    obtain ⟨rs, hrs⟩ := decodeListData_ok_of_noTagged xs (by simpa [vNoTagged] using h)
    exact ⟨.vlist rs, by simp [decodeVal, hrs, Bind.bind, Except.bind, Pure.pure, Except.pure]⟩
  | .obj m, h => by
    rw [vNoTagged, Bool.and_eq_true, Bool.not_eq_true'] at h
    obtain ⟨rm, hrm⟩ := decodeMapData_ok_of_noTagged m h.2
    exact ⟨.vdict rm, by
      simp [decodeVal, h.1, hrm, Bind.bind, Except.bind, Pure.pure, Except.pure]⟩

/-- `decodeMapData` succeeds on an object free of tagged values. -/
theorem decodeMapData_ok_of_noTagged :
    ∀ m : JMap, mNoTagged m = true → ∃ r, decodeMapData m = .ok r
  | .nil, _ => ⟨.nil, rfl⟩
  | .cons k v rest, h => by
    rw [mNoTagged, Bool.and_eq_true] at h
    obtain ⟨rv, hv⟩ := decodeVal_ok_of_noTagged v h.1
    obtain ⟨rr, hr⟩ := decodeMapData_ok_of_noTagged rest h.2
    exact ⟨.cons k rv rr, by
      simp [decodeMapData, hv, hr, Bind.bind, Except.bind, Pure.pure, Except.pure]⟩

/-- `decodeListData` succeeds on an array free of tagged elements. -/
theorem decodeListData_ok_of_noTagged :
    ∀ xs : JList, lNoTagged xs = true → ∃ r, decodeListData xs = .ok r
  | .nil, _ => ⟨.nil, rfl⟩
  | .cons v rest, h => by
    rw [lNoTagged, Bool.and_eq_true] at h
    obtain ⟨rv, hv⟩ := decodeVal_ok_of_noTagged v h.1
    obtain ⟨rr, hr⟩ := decodeListData_ok_of_noTagged rest h.2
    exact ⟨.cons rv rr, by
      simp [decodeListData, hv, hr, Bind.bind, Except.bind, Pure.pure, Except.pure]⟩
end

/-- C5 amended: decoding an Archetype wire object fails with the
structural validation error whenever the top level is malformed — the
type tag missing or not a string, the field mapping missing or not an
object, or any member outside the two reserved names (voluptuous rejects
unknown members) — and succeeds whenever the top level passes the schema
and no object inside `data` carries both reserved keys; nested values
without both reserved keys are never validated.  (Nested objects carrying
both reserved keys are recursively schema-checked and their failures
propagate: see the counterexample.) -/
theorem archetype_decode_top_level (m : JMap) :
    (((∀ a, m.lookup "archetype" ≠ some (.prim (.s a))) ∨
      (∀ d, m.lookup "data" ≠ some (.obj d)) ∨
      (∃ k ∈ m.keys, k ∉ (["archetype", "data"] : List String))) →
      ArchetypeInstance.from_json (.obj m) = .error .invalidJsonStructure) ∧
    (∀ d, archSchemaOk m = true → m.lookup "data" = some (.obj d) →
      mNoTagged d = true →
      ∃ a, ArchetypeInstance.from_json (.obj m) = .ok a) := by
  constructor
  · intro hbad
    have hschema : archSchemaOk m = false := by
      rcases hbad with hbad | hbad | ⟨k, hk, hout⟩
      · have : (match m.lookup "archetype" with
            | some (.prim (.s _)) => true | _ => false) = false := by
          cases hl : m.lookup "archetype" with
          | none => rfl
          | some v =>
            match v with
            | .prim (.s a) => exact absurd hl (hbad a)
            | .prim (.i _) | .prim (.f _) | .prim (.b _) | .prim .null => rfl
            | .arr _ | .obj _ => rfl
        simp [archSchemaOk, this]
      · have : (match m.lookup "data" with
            | some (.obj _) => true | _ => false) = false := by
          cases hl : m.lookup "data" with
          | none => rfl
          | some v =>
            match v with
            | .obj d => exact absurd hl (hbad d)
            | .prim _ | .arr _ => rfl
        simp [archSchemaOk, this]
      · simp [archSchemaOk, keysIn_eq_false_of_extra m _ k hk hout]
    simp [ArchetypeInstance.from_json, cleanup_json, decode_dict, hschema]
  · intro d hs hd hnt
    obtain ⟨⟨a, ha⟩, -, -⟩ := archSchemaOk_spec m hs
    obtain ⟨rd, hrd⟩ := decodeMapData_ok_of_noTagged d hnt
    refine ⟨⟨a, rd⟩, ?_⟩
    simp [ArchetypeInstance.from_json, cleanup_json, decode_dict, hs, getArchetype, ha,
      decodeDataMember_eq m d hd, hrd, Bind.bind, Except.bind, Pure.pure, Except.pure]

/-- C5 amended, witness: a malformed top level (extra member) is
rejected; a well-shaped top level whose `data` holds an untagged object
with a non-string `archetype` member (but no `data` member) decodes. -/
theorem archetype_decode_top_level_witness :
    ArchetypeInstance.from_json (.obj (.cons "archetype" (.prim (.s "a"))
        (.cons "data" (.obj .nil) (.cons "junk" (.prim .null) .nil)))) =
      .error .invalidJsonStructure ∧
    (∃ a, ArchetypeInstance.from_json (.obj (.cons "archetype" (.prim (.s "a"))
        (.cons "data" (.obj (.cons "k" (.obj (.cons "archetype" (.prim (.i 5)) .nil))
          .nil)) .nil))) = .ok a) :=
  ⟨(archetype_decode_top_level (.cons "archetype" (.prim (.s "a"))
      (.cons "data" (.obj .nil) (.cons "junk" (.prim .null) .nil)))).1
      (Or.inr (Or.inr ⟨"junk", by decide, by decide⟩)),
    (archetype_decode_top_level (.cons "archetype" (.prim (.s "a"))
      (.cons "data" (.obj (.cons "k" (.obj (.cons "archetype" (.prim (.i 5)) .nil))
        .nil)) .nil))).2
      (.cons "k" (.obj (.cons "archetype" (.prim (.i 5)) .nil)) .nil)
      (by decide) (by decide) (by decide)⟩

/-- Induction along a data dictionary's spine only. -/
theorem AMap.entrySpineInduction {motive : AMap → Prop} (hnil : motive .nil)
    (hcons : ∀ k v rest, motive rest → motive (.cons k v rest)) (m : AMap) : motive m :=
  AMap.rec (motive_1 := fun _ => True) (motive_2 := motive) (motive_3 := fun _ => True)
    (fun _ => trivial) (fun _ _ _ => trivial) (fun _ _ => trivial) (fun _ _ => trivial)
    hnil (fun k v rest _ ih => hcons k v rest ih)
    trivial (fun _ _ _ _ => trivial) m

/-- `encode_dict_data` emits exactly the keys of its input. -/
theorem encodeMapData_hasKey (m : AMap) : ∀ jm : JMap, encodeMapData m = some jm →
    ∀ k, jm.hasKey k = m.hasKey k := by
  induction m using AMap.entrySpineInduction with
  | hnil =>
    intro jm h k
    have hjm : some JMap.nil = some jm := h
    rw [← Option.some.inj hjm]
    rfl
  | hcons k' v rest ih =>
    intro jm h k
    have h' : (encodeVal v).bind
        (fun jv => (encodeMapData rest).bind (fun jr => some (JMap.cons k' jv jr))) =
        some jm := h
    cases hv : encodeVal v with
    | none => rw [hv] at h'; simp at h'
    | some jv =>
      cases hr : encodeMapData rest with
      | none => rw [hv, hr] at h'; simp at h'
      | some jr =>
        rw [hv, hr] at h'
        have h2 : JMap.cons k' jv jr = jm :=
          Option.some.inj (show some (JMap.cons k' jv jr) = some jm from h')
        subst h2
        rcases eq_or_ne k' k with rfl | hkk
        · simp [JMap.hasKey, JMap.lookup, AMap.hasKey, AMap.lookup]
        · have hrec := ih jr hr k
          simp only [JMap.hasKey, JMap.lookup, AMap.hasKey, AMap.lookup, if_neg hkk]
          simpa [JMap.hasKey, AMap.hasKey] using hrec

/-- An object value without both reserved keys decodes as a plain dict. -/
theorem decodeVal_obj_untagged (m : JMap) (h : is_archetype m = false) :
    decodeVal (.obj m) = (decodeMapData m) >>= (fun r => pure (AVal.vdict r)) := by
  have hunf : decodeVal (.obj m) =
      if is_archetype m then
        (if archSchemaOk m then
          match getArchetype m with
          | some a => (decodeDataMember m) >>= (fun d' => pure (AVal.node a d'))
          | none => .error .invalidJsonStructure
        else .error .invalidJsonStructure)
      else (decodeMapData m) >>= (fun r => pure (AVal.vdict r)) := rfl
  rw [hunf, h]
  simp

mutual
/-- Round trip for a single well-formed data value. -/
theorem roundtripVal : ∀ v : AVal, wfVal v = true →
    ∃ j, encodeVal v = some j ∧ decodeVal j = .ok v
  | .prim p, _ => ⟨.prim p, rfl, rfl⟩
  | .node a d, h => by
    have hwf : wfMap d = true := by simpa [wfVal] using h
    obtain ⟨jm, he, hd⟩ := roundtripMap d hwf
    refine ⟨.obj (.cons "archetype" (.prim (.s a)) (.cons "data" (.obj jm) .nil)), ?_, ?_⟩
    · have hunf : encodeVal (.node a d) = (encodeMapData d).bind
          (fun jm' => some (.obj (.cons "archetype" (.prim (.s a))
            (.cons "data" (.obj jm') .nil)))) := rfl
      rw [hunf, he]
      rfl
    · have hunf : decodeVal (.obj (.cons "archetype" (.prim (.s a))
            (.cons "data" (.obj jm) .nil))) =
          (decodeMapData jm) >>= (fun d' => pure (AVal.node a d')) := rfl
      rw [hunf, hd]
      rfl
  | .vdict m, h => by
    have h' : plainTagged m = false ∧ wfMap m = true := by
      simpa [wfVal, Bool.and_eq_true, Bool.not_eq_true'] using h
    obtain ⟨jm, he, hd⟩ := roundtripMap m h'.2
    refine ⟨.obj jm, ?_, ?_⟩
    · have hunf : encodeVal (.vdict m) =
          (encodeMapData m).bind (fun jm' => some (JVal.obj jm')) := rfl
      rw [hunf, he]
      rfl
    · have harch : is_archetype jm = false := by
        have h1 := encodeMapData_hasKey m jm he "archetype"
        have h2 := encodeMapData_hasKey m jm he "data"
        simp only [is_archetype, h1, h2]
        simpa [plainTagged] using h'.1
      rw [decodeVal_obj_untagged jm harch, hd]
      rfl
  | .vlist xs, h => by
    have hwf : wfList xs = true := by simpa [wfVal] using h
    obtain ⟨jl, he, hd⟩ := roundtripLi xs hwf
    refine ⟨.arr jl, ?_, ?_⟩
    · have hunf : encodeVal (.vlist xs) =
          (encodeListData xs).bind (fun l => some (JVal.arr l)) := rfl
      rw [hunf, he]
      rfl
    · have hunf : decodeVal (.arr jl) =
          (decodeListData jl) >>= (fun l => pure (AVal.vlist l)) := rfl
      rw [hunf, hd]
      rfl

/-- Round trip for a well-formed data dictionary. -/
theorem roundtripMap : ∀ m : AMap, wfMap m = true →
    ∃ jm, encodeMapData m = some jm ∧ decodeMapData jm = .ok m
  | .nil, _ => ⟨.nil, rfl, rfl⟩
  | .cons k v rest, h => by
    rw [wfMap, Bool.and_eq_true] at h
    obtain ⟨jv, hev, hdv⟩ := roundtripVal v h.1
    obtain ⟨jr, her, hdr⟩ := roundtripMap rest h.2
    refine ⟨.cons k jv jr, ?_, ?_⟩
    · have hunf : encodeMapData (.cons k v rest) = (encodeVal v).bind
          (fun jv' => (encodeMapData rest).bind
            (fun jr' => some (JMap.cons k jv' jr'))) := rfl
      rw [hunf, hev, her]
      rfl
    · have hunf : decodeMapData (.cons k jv jr) =
          (decodeVal jv) >>= (fun rv => (decodeMapData jr) >>=
            (fun rr => pure (AMap.cons k rv rr))) := rfl
      rw [hunf, hdv, hdr]
      rfl

/-- Round trip for a well-formed list. -/
theorem roundtripLi : ∀ xs : AList, wfList xs = true →
    ∃ jl, encodeListData xs = some jl ∧ decodeListData jl = .ok xs
  | .nil, _ => ⟨.nil, rfl, rfl⟩
  | .cons (.node a d) rest, h => by
    have hfalse : wfList (.cons (.node a d) rest) = false := rfl
    rw [hfalse] at h
    exact Bool.noConfusion h
  | .cons (.prim p) rest, h => by
    have hrest : wfList rest = true := h
    obtain ⟨jr, her, hdr⟩ := roundtripLi rest hrest
    refine ⟨.cons (.prim p) jr, ?_, ?_⟩
    · have hunf : encodeListData (.cons (.prim p) rest) =
          (encodeListData rest).bind (fun r => some (JList.cons (.prim p) r)) := rfl
      rw [hunf, her]
      rfl
    · have hunf : decodeListData (.cons (.prim p) jr) =
          (decodeVal (.prim p)) >>= (fun rx => (decodeListData jr) >>=
            (fun rr => pure (AList.cons rx rr))) := rfl
      rw [hunf, hdr]
      rfl
  | .cons (.vdict m) rest, h => by
    have h' : (wfVal (.vdict m) && wfList rest) = true := h
    rw [Bool.and_eq_true] at h'
    obtain ⟨jr, her, hdr⟩ := roundtripLi rest h'.2
    obtain ⟨jx, hex, hdx⟩ := roundtripVal (.vdict m) h'.1
    have hex' : (encodeMapData m).bind (fun jm => some (JVal.obj jm)) = some jx := hex
    cases hm : encodeMapData m with
    | none =>
      rw [hm] at hex'
      exact Option.noConfusion hex'
    | some jm =>
      rw [hm] at hex'
      have hjx : JVal.obj jm = jx := Option.some.inj hex'
      refine ⟨.cons (.obj jm) jr, ?_, ?_⟩
      · have hunf : encodeListData (.cons (.vdict m) rest) = (encodeMapData m).bind
            (fun jm' => (encodeListData rest).bind
              (fun r => some (JList.cons (.obj jm') r))) := rfl
        rw [hunf, hm, her]
        rfl
      · have hdx' : decodeVal (.obj jm) = .ok (.vdict m) := hjx ▸ hdx
        have hunf : decodeListData (.cons (.obj jm) jr) =
            (decodeVal (.obj jm)) >>= (fun rx => (decodeListData jr) >>=
              (fun rr => pure (AList.cons rx rr))) := rfl
        rw [hunf, hdx', hdr]
        rfl
  | .cons (.vlist ys) rest, h => by
    have h' : (wfVal (.vlist ys) && wfList rest) = true := h
    rw [Bool.and_eq_true] at h'
    obtain ⟨jr, her, hdr⟩ := roundtripLi rest h'.2
    obtain ⟨jx, hex, hdx⟩ := roundtripVal (.vlist ys) h'.1
    have hex' : (encodeListData ys).bind (fun l => some (JVal.arr l)) = some jx := hex
    cases hys : encodeListData ys with
    | none =>
      rw [hys] at hex'
      exact Option.noConfusion hex'
    | some jys =>
      rw [hys] at hex'
      have hjx : JVal.arr jys = jx := Option.some.inj hex'
      refine ⟨.cons (.arr jys) jr, ?_, ?_⟩
      · have hunf : encodeListData (.cons (.vlist ys) rest) = (encodeListData ys).bind
            (fun l => (encodeListData rest).bind
              (fun r => some (JList.cons (.arr l) r))) := rfl
        rw [hunf, hys, her]
        rfl
      · have hdx' : decodeVal (.arr jys) = .ok (.vlist ys) := hjx ▸ hdx
        have hunf : decodeListData (.cons (.arr jys) jr) =
            (decodeVal (.arr jys)) >>= (fun rx => (decodeListData jr) >>=
              (fun rr => pure (AList.cons rx rr))) := rfl
        rw [hunf, hdx', hdr]
        rfl
end

/-- C1 amended: for every tree built through the public constructor whose
data — at every depth — keeps `ArchetypeInstance` nodes out of lists (the
`encode_list_data` slip raises there) and whose plain dicts never carry
both reserved keys (the decoder would misread them as nodes), decoding
the encoding yields a tree structurally equal to the original. -/
theorem decode_encode_roundtrip (t : ArchetypeInstance) (h : wfMap t.data = true) :
    ∃ w, t.to_json = some w ∧ ArchetypeInstance.from_json w = .ok t := by
  obtain ⟨jm, he, hd⟩ := roundtripMap t.data h
  refine ⟨.obj (.cons "archetype" (.prim (.s t.archetype_class))
    (.cons "data" (.obj jm) .nil)), ?_, ?_⟩
  · have hunf : t.to_json = (encodeMapData t.data).bind
        (fun jm' => some (.obj (.cons "archetype" (.prim (.s t.archetype_class))
          (.cons "data" (.obj jm') .nil)))) := rfl
    rw [hunf, he]
    rfl
  · have hunf : ArchetypeInstance.from_json (.obj (.cons "archetype"
        (.prim (.s t.archetype_class)) (.cons "data" (.obj jm) .nil))) =
        (decodeMapData jm) >>= (fun d' =>
          pure (ArchetypeInstance.mk t.archetype_class d')) := rfl
    rw [hunf, hd]
    rfl

/-- C1 amended, witness: a tree with a scalar, an embedded node, a list
of scalars and a plain (untagged) dict round-trips. -/
theorem decode_encode_roundtrip_witness :
    ∃ w, ArchetypeInstance.to_json ⟨"obs", .cons "x" (.prim (.i 1))
        (.cons "nested" (.node "inner" (.cons "y" (.prim (.s "v")) .nil))
        (.cons "lst" (.vlist (.cons (.prim (.b true)) .nil))
        (.cons "mp" (.vdict (.cons "z" (.prim .null) .nil)) .nil)))⟩ = some w ∧
      ArchetypeInstance.from_json w =
        .ok ⟨"obs", .cons "x" (.prim (.i 1))
          (.cons "nested" (.node "inner" (.cons "y" (.prim (.s "v")) .nil))
          (.cons "lst" (.vlist (.cons (.prim (.b true)) .nil))
          (.cons "mp" (.vdict (.cons "z" (.prim .null) .nil)) .nil)))⟩ :=
  decode_encode_roundtrip _ (by decide)

/-- If every element of `ehr_records` decodes, the element-wise decode of
the whole list succeeds. -/
theorem decodeRecList_ok (now : Int) (fresh : String) :
    ∀ xs : JList, (∀ e ∈ xs.toList, ∃ c, ClinicalRecord.from_json now fresh e = .ok c) →
      ∃ rs, decodeRecList now fresh xs = .ok rs
  | .nil, _ => ⟨[], rfl⟩
  | .cons v rest, h => by
    obtain ⟨c, hc⟩ := h v (by simp [JList.toList])
    obtain ⟨rs, hrs⟩ := decodeRecList_ok now fresh rest
      (fun e he => h e (by simp [JList.toList, he]))
    refine ⟨c :: rs, ?_⟩
    have hunf : decodeRecList now fresh (.cons v rest) =
        (ClinicalRecord.from_json now fresh v) >>= (fun c' =>
          (decodeRecList now fresh rest) >>= (fun rs' => pure (c' :: rs'))) := rfl
    rw [hunf, hc, hrs]
    rfl

/-- A patient wire object whose `ehr_records` member is absent or not a
list fails the schema. -/
theorem prSchemaOk_eq_false (m : JMap)
    (h : ∀ xs, m.lookup "ehr_records" ≠ some (.arr xs)) : prSchemaOk m = false := by
  have h1 : (match m.lookup "ehr_records" with
      | some (.arr _) => true | _ => false) = false := by
    cases hl : m.lookup "ehr_records" with
    | none => rfl
    | some v =>
      match v with
      | .arr xs => exact absurd hl (h xs)
      | .prim _ | .obj _ => rfl
  simp [prSchemaOk, h1]

/-- C9 counterexample: a wire object holding only a valid, empty
`ehr_records` list — the claim says decoding succeeds with the id member
absent, but `PatientRecord(**json_data)` raises an uncaught `TypeError`
because the constructor's `record_id` parameter has no default. -/
theorem patient_decode_missing_id_type_error :
    PatientRecord.from_json 7 "u" (.obj (.cons "ehr_records" (.arr .nil) .nil)) =
      .error .typeErr := by
  decide

/-- C9 amended: decoding a patient wire object fails with the structural
validation error when `ehr_records` is absent or not a list; when the
schema accepts (`ehr_records` a list, the other members type-checked only
when present) and every list element decodes as a Clinical Record, the
decode succeeds if the `record_id` member is present and fails with an
uncaught constructor `TypeError` — not a successful decode — if it is
absent. -/
theorem patient_decode_spec (now : Int) (fresh : String) (m : JMap) :
    ((∀ xs, m.lookup "ehr_records" ≠ some (.arr xs)) →
      PatientRecord.from_json now fresh (.obj m) = .error .invalidJsonStructure) ∧
    (∀ xs, prSchemaOk m = true → m.lookup "ehr_records" = some (.arr xs) →
      (∀ e ∈ xs.toList, ∃ c, ClinicalRecord.from_json now fresh e = .ok c) →
      ((∃ rid, m.lookup "record_id" = some (.prim (.s rid))) →
        ∃ p, PatientRecord.from_json now fresh (.obj m) = .ok p) ∧
      (m.lookup "record_id" = none →
        PatientRecord.from_json now fresh (.obj m) = .error .typeErr)) := by
  constructor
  · intro hno
    have hps := prSchemaOk_eq_false m hno
    simp [PatientRecord.from_json, cleanup_json, decode_dict, hps]
  · intro xs hps hxs hall
    obtain ⟨rs, hrs⟩ := decodeRecList_ok now fresh xs hall
    constructor
    · rintro ⟨rid, hrid⟩
      have hok : PatientRecord.from_json now fresh (.obj m) =
          .ok (PatientRecord.init rid (some rs) (getFloatMember m "creation_time")
            (getFloatMember m "last_update") ((getBoolMember m "active").getD true)
            now fresh) := by
        simp [PatientRecord.from_json, cleanup_json, decode_dict, hps, hxs, hrs, hrid,
          Bind.bind, Except.bind, Pure.pure, Except.pure]
      exact ⟨_, hok⟩
    · intro hrid
      simp [PatientRecord.from_json, cleanup_json, decode_dict, hps, hxs, hrs, hrid,
        Bind.bind, Except.bind, Pure.pure, Except.pure]

/-- C9 amended, witness: an object with no `ehr_records` member is
rejected; `record_id` present with an empty list decodes; the same object
without `record_id` hits the `TypeError`. -/
theorem patient_decode_spec_witness :
    PatientRecord.from_json 7 "u" (.obj .nil) = .error .invalidJsonStructure ∧
    (∃ p, PatientRecord.from_json 7 "u" (.obj (.cons "record_id" (.prim (.s "pid"))
      (.cons "ehr_records" (.arr .nil) .nil))) = .ok p) ∧
    PatientRecord.from_json 7 "u" (.obj (.cons "ehr_records" (.arr .nil) .nil)) =
      .error .typeErr :=
  ⟨(patient_decode_spec 7 "u" .nil).1 (fun xs h => by simp [JMap.lookup] at h),
    ((patient_decode_spec 7 "u" (.cons "record_id" (.prim (.s "pid"))
        (.cons "ehr_records" (.arr .nil) .nil))).2 .nil (by decide) (by decide)
        (fun e he => by simp [JList.toList] at he)).1 ⟨"pid", by decide⟩,
    ((patient_decode_spec 7 "u" (.cons "ehr_records" (.arr .nil) .nil)).2 .nil
        (by decide) (by decide)
        (fun e he => by simp [JList.toList] at he)).2 (by decide)⟩

end PyEHR
